import Mathlib

/-!
Verification development for the `edlib-rs` pairwise-alignment crate.

The Rust crate (`src/edlibrs.rs`) is a thin idiomatic wrapper over the
native edlib alignment engine: it defines the configuration and result
records, the mode/task/format/edit-operation enumerations, the default
configuration, and the marshalling of the native result into the Rust
result record.  The alignment engine itself (distance computation,
location recovery, path traceback, CIGAR encoding) is native code that
is not part of the Rust sources; it is modelled here from the
specification (`spec.md` sections 4.1-4.5), faithfully to its words.

Byte sequences are represented as `List Nat` (byte values), positions
as `Nat` inside the engine and as `Int` in the result record (the Rust
record stores `i32` positions).
-/

namespace EdlibRs

/-- Status code `EDLIB_RS_STATUS_OK` from the Rust source. -/
def EDLIB_RS_STATUS_OK : Nat := 0

/-- Status code `EDLIB_RS_STATUS_ERROR` from the Rust source. -/
def EDLIB_RS_STATUS_ERROR : Nat := 1

/-- Alignment methods, from the Rust enum `EdlibAlignModeRs`:
global (NW), prefix (SHW), infix (HW). -/
inductive EdlibAlignModeRs where
  | EDLIB_MODE_NW
  | EDLIB_MODE_SHW
  | EDLIB_MODE_HW
deriving DecidableEq, Repr

/-- Alignment tasks, from the Rust enum `EdlibAlignTaskRs`. -/
inductive EdlibAlignTaskRs where
  | EDLIB_TASK_DISTANCE
  | EDLIB_TASK_LOC
  | EDLIB_TASK_PATH
deriving DecidableEq, Repr

/-- Cigar formats, from the Rust enum `EdlibCigarFormatRs`. -/
inductive EdlibCigarFormatRs where
  | EDLIB_CIGAR_STANDARD
  | EDLIB_CIGAR_EXTENDED
deriving DecidableEq, Repr

/-- Edit operations, from the Rust enum `EdlibEdopRs`:
match, insertion to target (= deletion from query, consumes a query
symbol), deletion from target (= insertion to query, consumes a target
symbol), mismatch.  In the Rust result record these are stored as the
byte codes 0,1,2,3 in this order. -/
inductive EdlibEdopRs where
  | EDLIB_EDOP_MATCH
  | EDLIB_EDOP_INSERT
  | EDLIB_EDOP_DELETE
  | EDLIB_EDOP_MISMATCH
deriving DecidableEq, Repr

/-- A pair of byte values declared equal, from the Rust struct
`EdlibEqualityPairRs`. -/
structure EdlibEqualityPairRs where
  first : Nat
  second : Nat
deriving DecidableEq, Repr

/-- Configuration record, from the Rust struct `EdlibAlignConfigRs`. -/
structure EdlibAlignConfigRs where
  k : Int
  mode : EdlibAlignModeRs
  task : EdlibAlignTaskRs
  additionalequalities : List EdlibEqualityPairRs
deriving DecidableEq, Repr

/-- The default configuration, from `impl Default for EdlibAlignConfigRs`:
`k = -1, mode = EDLIB_MODE_NW, task = EDLIB_TASK_DISTANCE`, no
additional equalities. -/
def EdlibAlignConfigRs.default : EdlibAlignConfigRs :=
  { k := -1
    mode := EdlibAlignModeRs.EDLIB_MODE_NW
    task := EdlibAlignTaskRs.EDLIB_TASK_DISTANCE
    additionalequalities := [] }

/-- Result record, from the Rust struct `EdlibAlignResultRs`.  The
`alignment` field holds the edit operations (stored in Rust as their
byte codes). -/
structure EdlibAlignResultRs where
  status : Nat
  editDistance : Int
  endLocations : Option (List Int)
  startLocations : Option (List Int)
  numLocations : Nat
  alignment : Option (List EdlibEdopRs)
  alphabetLength : Nat
deriving DecidableEq, Repr

/-- The default result, from `impl Default for EdlibAlignResultRs`. -/
def EdlibAlignResultRs.default : EdlibAlignResultRs :=
  { status := EDLIB_RS_STATUS_OK
    editDistance := 0
    endLocations := none
    startLocations := none
    numLocations := 0
    alignment := none
    alphabetLength := 0 }

/-! ## AlphabetMapper

Modelled from the spec (section 4.1): equality pairs induce an
equivalence relation over the byte alphabet; the mapper computes the
equivalence classes of all bytes mentioned by the sequences or the
pairs, and counts the distinct classes appearing in the sequences. -/

/-- First-occurrence deduplication of a list of byte values. -/
def dedupAux : List Nat → List Nat → List Nat
  | [], acc => acc.reverse
  | x :: xs, acc => if acc.contains x then dedupAux xs acc else dedupAux xs (x :: acc)

/-- First-occurrence deduplication of a list of byte values. -/
def dedup (l : List Nat) : List Nat := dedupAux l []

/-- Modelled from the spec (4.1): merge the two classes containing the
members of one declared equality pair (one union step of the
equivalence-closure construction). -/
def mergeStep (cs : List (List Nat)) (p : EdlibEqualityPairRs) : List (List Nat) :=
  match cs.find? (fun c => c.contains p.first), cs.find? (fun c => c.contains p.second) with
  | some ca, some cb =>
      if ca = cb then cs
      else (ca ++ cb) :: cs.filter (fun c => ¬(c = ca) ∧ ¬(c = cb))
  | _, _ => cs

/-- Modelled from the spec (4.1 AlphabetMapper): the symbol classes of
all bytes appearing in either sequence or in an equality pair, after
closing the declared equalities under symmetry and transitivity. -/
def classesOf (q t : List Nat) (pairs : List EdlibEqualityPairRs) : List (List Nat) :=
  pairs.foldl mergeStep
    ((dedup (q ++ t ++ pairs.map EdlibEqualityPairRs.first
        ++ pairs.map EdlibEqualityPairRs.second)).map (fun b => [b]))

/-- Modelled from the spec (4.1): two bytes compare equal when they are
identical or fall in the same symbol class. -/
def symEq (classes : List (List Nat)) (a b : Nat) : Bool :=
  a == b ||
    (match classes.find? (fun c => c.contains a) with
     | some ca => ca.contains b
     | none => false)

/-- Class index of a byte (index of its class in the class list). -/
def classId (classes : List (List Nat)) (b : Nat) : Nat :=
  classes.findIdx (fun c => c.contains b)

/-- Modelled from the spec (4.1): the count of distinct symbol classes
among the bytes appearing in the two sequences. -/
def alphaLen (classes : List (List Nat)) (q t : List Nat) : Nat :=
  (dedup ((q ++ t).map (classId classes))).length

theorem symEq_refl (classes : List (List Nat)) (a : Nat) : symEq classes a a = true := by
  simp [symEq]

/-! ## DistanceEngine

Modelled from the spec (section 4.2): a dynamic-programming sweep that
processes the target one symbol at a time, computing the row of edit
costs of the query against every target prefix; the three boundary
regimes (global / prefix / infix) differ only in the initial row and in
which final-row entries are read off.  `rowAux` computes one new DP row
from the previous one with the unit-cost recurrence
`D[i][j] = min (D[i-1][j-1] + subst) (min (D[i-1][j] + 1) (D[i][j-1] + 1))`. -/

/-- One DP row transition: given the query symbol `qc` of the new row,
the remaining target symbols, the previous row (starting at the
diagonal predecessor) and the value just computed to the left, produce
the rest of the new row. -/
def rowAux (beq : Nat → Nat → Bool) (qc : Nat) :
    List Nat → List Nat → Nat → List Nat
  | tc :: ts, pd :: pu :: ps, left =>
      let v := min (pd + (if beq qc tc then 0 else 1)) (min (pu + 1) (left + 1))
      v :: rowAux beq qc ts (pu :: ps) v
  | _, _, _ => []

/-- Fold the DP row transition over the query symbols; `i` is the index
of the next row (the cost of that row's empty-target-prefix cell). -/
def dpRows (beq : Nat → Nat → Bool) (t : List Nat) :
    List Nat → List Nat → Nat → List Nat
  | [], row, _ => row
  | qc :: qs, row, i => dpRows beq t qs (i :: rowAux beq qc t row i) (i + 1)

/-- The final DP row (costs of the full query against every target
prefix), from a given initial row. -/
def finalRow (beq : Nat → Nat → Bool) (q t : List Nat) (row0 : List Nat) : List Nat :=
  dpRows beq t q row0 1

/-- Minimum of a list of naturals (0 for the empty list). -/
def listMin : List Nat → Nat
  | [] => 0
  | x :: xs => xs.foldl min x

/-- Modelled from the spec (4.2 Global): both ends penalized; the
distance is the final-row cell of the full target. -/
def distNW (beq : Nat → Nat → Bool) (q t : List Nat) : Nat :=
  (finalRow beq q t (List.range (t.length + 1))).getD t.length 0

/-- Modelled from the spec (4.2 Prefix): trailing target symbols free;
the distance is the minimum over all final-row cells. -/
def distSHW (beq : Nat → Nat → Bool) (q t : List Nat) : Nat :=
  listMin (finalRow beq q t (List.range (t.length + 1)))

/-- Modelled from the spec (4.2 Infix): leading and trailing target
symbols free (free leading gap = zero initial row); the distance is the
minimum over all final-row cells. -/
def distHW (beq : Nat → Nat → Bool) (q t : List Nat) : Nat :=
  listMin (finalRow beq q t (List.replicate (t.length + 1) 0))

/-- Modelled from the spec (4.2): the distance for one alignment mode. -/
def modeDist (beq : Nat → Nat → Bool) (mode : EdlibAlignModeRs) (q t : List Nat) : Nat :=
  match mode with
  | EdlibAlignModeRs.EDLIB_MODE_NW => distNW beq q t
  | EdlibAlignModeRs.EDLIB_MODE_SHW => distSHW beq q t
  | EdlibAlignModeRs.EDLIB_MODE_HW => distHW beq q t

/-- The target substring spanning positions `[s, e)`. -/
def slice (s e : Nat) (t : List Nat) : List Nat := (t.drop s).take (e - s)

/-- Modelled from the spec (4.2 Output): the zero-based target end
positions of the optimal alignments — the last target position for
Global mode, and for Prefix/Infix every position whose final-row score
equals the minimal distance, in ascending order. -/
def modeEnds (beq : Nat → Nat → Bool) (mode : EdlibAlignModeRs)
    (q t : List Nat) (d : Nat) : List Nat :=
  match mode with
  | EdlibAlignModeRs.EDLIB_MODE_NW => [t.length - 1]
  | EdlibAlignModeRs.EDLIB_MODE_SHW =>
      (List.range t.length).filter
        (fun e => (finalRow beq q t (List.range (t.length + 1))).getD (e + 1) 0 == d)
  | EdlibAlignModeRs.EDLIB_MODE_HW =>
      (List.range t.length).filter
        (fun e => (finalRow beq q t (List.replicate (t.length + 1) 0)).getD (e + 1) 0 == d)

/-! ## LocationFinder

Modelled from the spec (section 4.3): for each end location, exactly
one start location — for Global and Prefix mode the alignment starts at
target position 0; for Infix mode the smallest start offset whose
sub-alignment against the span ending at the end location reproduces
the known distance (ties broken towards the longest span). -/

/-- Modelled from the spec (4.3): the start location paired with end
location `e`. -/
def startFor (beq : Nat → Nat → Bool) (mode : EdlibAlignModeRs)
    (q t : List Nat) (d : Nat) (e : Nat) : Nat :=
  match mode with
  | EdlibAlignModeRs.EDLIB_MODE_NW => 0
  | EdlibAlignModeRs.EDLIB_MODE_SHW => 0
  | EdlibAlignModeRs.EDLIB_MODE_HW =>
      ((List.range (e + 1)).find?
        (fun s => distNW beq q (slice s (e + 1) t) == d)).getD 0

/-! ## PathTracer

Modelled from the spec (section 4.4): materialize the full DP score
matrix of the query against the chosen target span, then backtrack from
the bottom-right corner preferring diagonal (match/mismatch) over
vertical (query-consuming) over horizontal (target-consuming)
predecessors, and read the traced operations in forward order. -/

/-- All DP rows (row 0 is the initial row) of the query against a
target span, with the global initialization inside the span. -/
def matRows (beq : Nat → Nat → Bool) (t : List Nat) :
    List Nat → List Nat → Nat → List (List Nat)
  | [], row, _ => [row]
  | qc :: qs, row, i => row :: matRows beq t qs (i :: rowAux beq qc t row i) (i + 1)

/-- The full DP score matrix of `q` against the span `sub`. -/
def dpMatrix (beq : Nat → Nat → Bool) (q sub : List Nat) : List (List Nat) :=
  matRows beq sub q (List.range (sub.length + 1)) 1

/-- Matrix cell access (row `i`, column `j`). -/
def mget (m : List (List Nat)) (i j : Nat) : Nat := (m.getD i []).getD j 0

/-- Modelled from the spec (4.4): backtracking through the DP matrix
from cell `(i, j)` to `(0, 0)`, emitting one edit operation per step in
forward order; the fuel argument bounds the number of steps by the
initial `i + j`. -/
def backtrack (beq : Nat → Nat → Bool) (q sub : List Nat) (m : List (List Nat)) :
    Nat → Nat → Nat → List EdlibEdopRs
  | 0, _, _ => []
  | fuel + 1, i, j =>
      if i = 0 ∧ j = 0 then []
      else if 0 < i ∧ 0 < j ∧
          mget m i j = mget m (i - 1) (j - 1) +
            (if beq (q.getD (i - 1) 0) (sub.getD (j - 1) 0) then 0 else 1) then
        backtrack beq q sub m fuel (i - 1) (j - 1) ++
          [if beq (q.getD (i - 1) 0) (sub.getD (j - 1) 0) then
            EdlibEdopRs.EDLIB_EDOP_MATCH else EdlibEdopRs.EDLIB_EDOP_MISMATCH]
      else if 0 < i ∧ mget m i j = mget m (i - 1) j + 1 then
        backtrack beq q sub m fuel (i - 1) j ++ [EdlibEdopRs.EDLIB_EDOP_INSERT]
      else if 0 < j then
        backtrack beq q sub m fuel i (j - 1) ++ [EdlibEdopRs.EDLIB_EDOP_DELETE]
      else
        backtrack beq q sub m fuel (i - 1) j ++ [EdlibEdopRs.EDLIB_EDOP_INSERT]

/-- Modelled from the spec (4.4): the edit-operation path of the query
against the chosen target span. -/
def tracePath (beq : Nat → Nat → Bool) (q sub : List Nat) : List EdlibEdopRs :=
  backtrack beq q sub (dpMatrix beq q sub) (q.length + sub.length) q.length sub.length

/-! ## The aligner

Modelled from the spec (sections 4.2, 4.3, 4.4, 7): compute the mode
distance; when a non-negative bound `k` is exceeded report the `-1`
sentinel with no locations and no path and status Ok; otherwise report
the distance, the end locations, the start locations when the task asks
for them, and, for the Path task, the traced path of the first
start/end pair. -/

/-- Modelled from the spec: the alignment engine behind `edlibAlignRs`
(native `edlibAlign`, absent from the Rust sources). -/
def edlibAlignModel (q t : List Nat) (cfg : EdlibAlignConfigRs) : EdlibAlignResultRs :=
  let classes := classesOf q t cfg.additionalequalities
  let beq := symEq classes
  let d := modeDist beq cfg.mode q t
  let alpha := alphaLen classes q t
  if 0 ≤ cfg.k ∧ cfg.k < (d : Int) then
    { status := EDLIB_RS_STATUS_OK
      editDistance := -1
      endLocations := none
      startLocations := none
      numLocations := 0
      alignment := none
      alphabetLength := alpha }
  else
    let ends := modeEnds beq cfg.mode q t d
    let starts := ends.map (startFor beq cfg.mode q t d)
    let e0 := ends.headD 0
    let s0 := startFor beq cfg.mode q t d e0
    { status := EDLIB_RS_STATUS_OK
      editDistance := (d : Int)
      endLocations := some (ends.map Int.ofNat)
      startLocations :=
        match cfg.task with
        | EdlibAlignTaskRs.EDLIB_TASK_DISTANCE => none
        | _ => some (starts.map Int.ofNat)
      numLocations := ends.length
      alignment :=
        match cfg.task with
        | EdlibAlignTaskRs.EDLIB_TASK_PATH =>
            some (tracePath beq q (slice s0 (e0 + 1) t))
        | _ => none
      alphabetLength := alpha }

/-! ## CigarEncoder

Modelled from the spec (section 4.5): run-length-encode the edit
operations into `<count><letter>` tokens, merging consecutive
operations of the same encoded class; an empty operation sequence is an
error (no output string is produced). -/

/-- Modelled from the spec (4.5): the encoded class letter of one edit
operation in each cigar format. -/
def cigarClass (fmt : EdlibCigarFormatRs) (op : EdlibEdopRs) : Char :=
  match fmt, op with
  | EdlibCigarFormatRs.EDLIB_CIGAR_STANDARD, EdlibEdopRs.EDLIB_EDOP_MATCH => 'M'
  | EdlibCigarFormatRs.EDLIB_CIGAR_STANDARD, EdlibEdopRs.EDLIB_EDOP_MISMATCH => 'M'
  | EdlibCigarFormatRs.EDLIB_CIGAR_STANDARD, EdlibEdopRs.EDLIB_EDOP_INSERT => 'I'
  | EdlibCigarFormatRs.EDLIB_CIGAR_STANDARD, EdlibEdopRs.EDLIB_EDOP_DELETE => 'D'
  | EdlibCigarFormatRs.EDLIB_CIGAR_EXTENDED, EdlibEdopRs.EDLIB_EDOP_MATCH => '='
  | EdlibCigarFormatRs.EDLIB_CIGAR_EXTENDED, EdlibEdopRs.EDLIB_EDOP_MISMATCH => 'X'
  | EdlibCigarFormatRs.EDLIB_CIGAR_EXTENDED, EdlibEdopRs.EDLIB_EDOP_INSERT => 'I'
  | EdlibCigarFormatRs.EDLIB_CIGAR_EXTENDED, EdlibEdopRs.EDLIB_EDOP_DELETE => 'D'

/-- One `<count><letter>` cigar token. -/
def cigarToken (n : Nat) (c : Char) : String := Nat.repr n ++ String.singleton c

/-- The encoding loop: scan the class letters left to right, counting
the current run and emitting a token at each class change. -/
def cigarLoop : List Char → Char → Nat → String
  | [], cur, n => cigarToken n cur
  | c :: rest, cur, n =>
      if c = cur then cigarLoop rest cur (n + 1)
      else cigarToken n cur ++ cigarLoop rest c 1

/-- Modelled from the spec (4.5 and section 6): the cigar encoder
behind `edlibAlignmentToCigarRs` (native `edlibAlignmentToCigar`,
absent from the Rust sources); fails (`none`) on an empty operation
sequence. -/
def edlibAlignmentToCigarModel (alignment : List EdlibEdopRs)
    (cigarFormat : EdlibCigarFormatRs) : Option String :=
  match alignment.map (cigarClass cigarFormat) with
  | [] => none
  | c :: rest => some (cigarLoop rest c 1)

/-! ## Concrete sequences used by the crate's tests -/

/-- The byte values of a string (`str::as_bytes`; the test inputs are
ASCII). -/
def strBytes (s : String) : List Nat := s.data.map Char.toNat

/-- Test query `"ACCTCTG"`. -/
def seqACCTCTG : List Nat := strBytes "ACCTCTG"

/-- Test target `"ACTCTGAAA"`. -/
def seqACTCTGAAA : List Nat := strBytes "ACTCTGAAA"

/-- Test query `"missing"`. -/
def seqMissing : List Nat := strBytes "missing"

/-- Test target `"mississipi"`. -/
def seqMississipi : List Nat := strBytes "mississipi"

/-- The infix/path configuration of the test `test_path_hw`. -/
def cfgPathHW : EdlibAlignConfigRs :=
  { k := -1
    mode := EdlibAlignModeRs.EDLIB_MODE_HW
    task := EdlibAlignTaskRs.EDLIB_TASK_PATH
    additionalequalities := [] }

/-! ## Claims -/

/-- Claim C10: the default alignment configuration has `k = -1`
(unbounded), mode `EDLIB_MODE_NW` (global), task
`EDLIB_TASK_DISTANCE`, and no additional equality pairs. -/
theorem claim_C10 :
    EdlibAlignConfigRs.default.k = -1 ∧
    EdlibAlignConfigRs.default.mode = EdlibAlignModeRs.EDLIB_MODE_NW ∧
    EdlibAlignConfigRs.default.task = EdlibAlignTaskRs.EDLIB_TASK_DISTANCE ∧
    EdlibAlignConfigRs.default.additionalequalities = [] :=
  ⟨rfl, rfl, rfl, rfl⟩

/-- Claim C1: aligning `"ACCTCTG"` against `"ACTCTGAAA"` in Global mode
with the default (unbounded) configuration returns status Ok and edit
distance 4. -/
theorem claim_C1 :
    (edlibAlignModel seqACCTCTG seqACTCTGAAA EdlibAlignConfigRs.default).status =
      EDLIB_RS_STATUS_OK ∧
    (edlibAlignModel seqACCTCTG seqACTCTGAAA EdlibAlignConfigRs.default).editDistance = 4 := by
  constructor
  · decide
  · decide

/-- Claim C2: when the true edit distance exceeds a non-negative bound
`k`, the aligner reports status Ok with the `-1` sentinel edit distance
and no end locations, start locations or path; in particular for
`"ACCTCTG"` vs `"ACTCTGAAA"` in Global mode with `k = 3` the edit
distance is `-1`. -/
theorem claim_C2 (q t : List Nat) (cfg : EdlibAlignConfigRs)
    (hk : 0 ≤ cfg.k)
    (hd : cfg.k <
      (modeDist (symEq (classesOf q t cfg.additionalequalities)) cfg.mode q t : Int)) :
    (edlibAlignModel q t cfg).status = EDLIB_RS_STATUS_OK ∧
    (edlibAlignModel q t cfg).editDistance = -1 ∧
    (edlibAlignModel q t cfg).endLocations = none ∧
    (edlibAlignModel q t cfg).startLocations = none ∧
    (edlibAlignModel q t cfg).alignment = none ∧
    (edlibAlignModel seqACCTCTG seqACTCTGAAA
      { EdlibAlignConfigRs.default with k := 3 }).editDistance = -1 := by
  refine ⟨?_, ?_, ?_, ?_, ?_, by decide⟩ <;>
    simp [edlibAlignModel, hk, hd]

/-- Witness for claim C2 at the test input of
`test_distance_nw_with_max_k` (`k = 3`, true distance 4). -/
theorem claim_C2_witness :
    (edlibAlignModel seqACCTCTG seqACTCTGAAA
      { EdlibAlignConfigRs.default with k := 3 }).editDistance = -1 :=
  (claim_C2 seqACCTCTG seqACTCTGAAA
    { EdlibAlignConfigRs.default with k := 3 } (by decide) (by decide)).2.1

/-- Claim C3: the cigar encoder fails (returns no string at all, in
particular not the empty string) on an empty edit-operation sequence,
in either format. -/
theorem claim_C3 (fmt : EdlibCigarFormatRs) :
    edlibAlignmentToCigarModel [] fmt = none := rfl

/-! ## Run-length characterization of the cigar encoder

The encoder is a left-to-right counting loop; the claims describe it as
merging maximal runs of operations of the same encoded class.  The
grouping into maximal runs is defined independently (from the right)
and proved equal to the loop. -/

/-- Prepend a run of `n` copies of `c` to a run list, merging it with
the first run when the letters agree. -/
def consRun (n : Nat) (c : Char) : List (Nat × Char) → List (Nat × Char)
  | (m, d) :: rest => if c = d then (n + m, d) :: rest else (n, c) :: (m, d) :: rest
  | [] => [(n, c)]

/-- The maximal runs of equal letters of a letter sequence. -/
def runsOf : List Char → List (Nat × Char)
  | [] => []
  | c :: rest => consRun 1 c (runsOf rest)

/-- Render a run list as a cigar string. -/
def renderRuns : List (Nat × Char) → String
  | [] => ""
  | r :: rs => cigarToken r.1 r.2 ++ renderRuns rs

theorem string_append_empty (s : String) : s ++ "" = s := by
  cases s with
  | mk data =>
      show String.append (String.mk data) (String.mk []) = String.mk data
      simp [String.append]

theorem consRun_consRun (n m : Nat) (c : Char) (rs : List (Nat × Char)) :
    consRun n c (consRun m c rs) = consRun (n + m) c rs := by
  cases rs with
  | nil => simp [consRun, Nat.add_assoc]
  | cons r rest =>
      cases r with
      | mk p d =>
          by_cases hcd : c = d
          · simp [consRun, hcd, Nat.add_assoc]
          · simp [consRun, hcd]

theorem consRun_head (n : Nat) (c : Char) (rs : List (Nat × Char)) :
    ∃ p tail, consRun n c rs = (p, c) :: tail := by
  cases rs with
  | nil => exact ⟨n, [], rfl⟩
  | cons r rest =>
      cases r with
      | mk m d =>
          by_cases hcd : c = d
          · exact ⟨n + m, rest, by simp [consRun, hcd]⟩
          · exact ⟨n, (m, d) :: rest, by simp [consRun, hcd]⟩

theorem cigarLoop_runs (rest : List Char) :
    ∀ (c : Char) (n : Nat), cigarLoop rest c n = renderRuns (consRun n c (runsOf rest)) := by
  induction rest with
  | nil =>
      intro c n
      simp [cigarLoop, runsOf, consRun, renderRuns, string_append_empty]
  | cons c' rest ih =>
      intro c n
      by_cases h : c' = c
      · subst h
        show cigarLoop (c' :: rest) c' n = renderRuns (consRun n c' (runsOf (c' :: rest)))
        rw [show runsOf (c' :: rest) = consRun 1 c' (runsOf rest) from rfl,
          consRun_consRun]
        simp [cigarLoop, ih]
      · obtain ⟨p, tail, hpt⟩ := consRun_head 1 c' (runsOf rest)
        have hne : ¬ c = c' := fun hcc => h hcc.symm
        rw [show runsOf (c' :: rest) = consRun 1 c' (runsOf rest) from rfl, hpt]
        rw [show cigarLoop (c' :: rest) c n = cigarToken n c ++ cigarLoop rest c' 1 by
          simp [cigarLoop, h]]
        rw [ih, hpt]
        simp [consRun, hne, renderRuns]

/-- Claim C6: the cigar encoder run-length-encodes the edit operations
by their encoded class: in standard format Match and Mismatch both map
to `M` (so adjacent Match/Mismatch merge into one run) and
InsertToTarget/InsertToQuery map to `I`/`D`; in extended format the
four operations map to the four distinct letters `=`, `X`, `I`, `D`
(so adjacent Match/Mismatch do not merge); on any non-empty operation
sequence the output is exactly the rendered list of maximal runs of
equal class letters. -/
theorem claim_C6 :
    (∀ (path : List EdlibEdopRs) (fmt : EdlibCigarFormatRs), path ≠ [] →
      edlibAlignmentToCigarModel path fmt =
        some (renderRuns (runsOf (path.map (cigarClass fmt))))) ∧
    cigarClass EdlibCigarFormatRs.EDLIB_CIGAR_STANDARD EdlibEdopRs.EDLIB_EDOP_MATCH = 'M' ∧
    cigarClass EdlibCigarFormatRs.EDLIB_CIGAR_STANDARD EdlibEdopRs.EDLIB_EDOP_MISMATCH = 'M' ∧
    cigarClass EdlibCigarFormatRs.EDLIB_CIGAR_STANDARD EdlibEdopRs.EDLIB_EDOP_INSERT = 'I' ∧
    cigarClass EdlibCigarFormatRs.EDLIB_CIGAR_STANDARD EdlibEdopRs.EDLIB_EDOP_DELETE = 'D' ∧
    cigarClass EdlibCigarFormatRs.EDLIB_CIGAR_EXTENDED EdlibEdopRs.EDLIB_EDOP_MATCH = '=' ∧
    cigarClass EdlibCigarFormatRs.EDLIB_CIGAR_EXTENDED EdlibEdopRs.EDLIB_EDOP_MISMATCH = 'X' ∧
    cigarClass EdlibCigarFormatRs.EDLIB_CIGAR_EXTENDED EdlibEdopRs.EDLIB_EDOP_INSERT = 'I' ∧
    cigarClass EdlibCigarFormatRs.EDLIB_CIGAR_EXTENDED EdlibEdopRs.EDLIB_EDOP_DELETE = 'D' ∧
    cigarClass EdlibCigarFormatRs.EDLIB_CIGAR_STANDARD EdlibEdopRs.EDLIB_EDOP_MATCH =
      cigarClass EdlibCigarFormatRs.EDLIB_CIGAR_STANDARD EdlibEdopRs.EDLIB_EDOP_MISMATCH ∧
    cigarClass EdlibCigarFormatRs.EDLIB_CIGAR_EXTENDED EdlibEdopRs.EDLIB_EDOP_MATCH ≠
      cigarClass EdlibCigarFormatRs.EDLIB_CIGAR_EXTENDED EdlibEdopRs.EDLIB_EDOP_MISMATCH := by
  refine ⟨?_, rfl, rfl, rfl, rfl, rfl, rfl, rfl, rfl, rfl, by decide⟩
  intro path fmt hne
  cases path with
  | nil => exact absurd rfl hne
  | cons op rest =>
      show edlibAlignmentToCigarModel (op :: rest) fmt =
        some (renderRuns (runsOf (cigarClass fmt op :: rest.map (cigarClass fmt))))
      rw [show runsOf (cigarClass fmt op :: rest.map (cigarClass fmt)) =
        consRun 1 (cigarClass fmt op) (runsOf (rest.map (cigarClass fmt))) from rfl]
      rw [← cigarLoop_runs]
      rfl

/-- Witness for claim C6 at a Match-then-Mismatch sequence (one merged
`2M` run in standard format). -/
theorem claim_C6_witness :
    edlibAlignmentToCigarModel
      [EdlibEdopRs.EDLIB_EDOP_MATCH, EdlibEdopRs.EDLIB_EDOP_MISMATCH]
      EdlibCigarFormatRs.EDLIB_CIGAR_STANDARD =
    some (renderRuns (runsOf
      ([EdlibEdopRs.EDLIB_EDOP_MATCH, EdlibEdopRs.EDLIB_EDOP_MISMATCH].map
        (cigarClass EdlibCigarFormatRs.EDLIB_CIGAR_STANDARD)))) :=
  claim_C6.1 [EdlibEdopRs.EDLIB_EDOP_MATCH, EdlibEdopRs.EDLIB_EDOP_MISMATCH]
    EdlibCigarFormatRs.EDLIB_CIGAR_STANDARD (by decide)

/-- Claim C4: aligning `"missing"` against `"mississipi"` in Infix mode
with the Path task yields edit distance 2 with start locations, end
locations and an alignment path present, and the path encodes to the
cigar strings `"5M2I"` (standard format) and `"5=2I"` (extended
format). -/
theorem claim_C4 :
    (edlibAlignModel seqMissing seqMississipi cfgPathHW).editDistance = 2 ∧
    (edlibAlignModel seqMissing seqMississipi cfgPathHW).startLocations.isSome = true ∧
    (edlibAlignModel seqMissing seqMississipi cfgPathHW).endLocations.isSome = true ∧
    (edlibAlignModel seqMissing seqMississipi cfgPathHW).alignment =
      some [EdlibEdopRs.EDLIB_EDOP_MATCH, EdlibEdopRs.EDLIB_EDOP_MATCH,
        EdlibEdopRs.EDLIB_EDOP_MATCH, EdlibEdopRs.EDLIB_EDOP_MATCH,
        EdlibEdopRs.EDLIB_EDOP_MATCH, EdlibEdopRs.EDLIB_EDOP_INSERT,
        EdlibEdopRs.EDLIB_EDOP_INSERT] ∧
    edlibAlignmentToCigarModel
      [EdlibEdopRs.EDLIB_EDOP_MATCH, EdlibEdopRs.EDLIB_EDOP_MATCH,
        EdlibEdopRs.EDLIB_EDOP_MATCH, EdlibEdopRs.EDLIB_EDOP_MATCH,
        EdlibEdopRs.EDLIB_EDOP_MATCH, EdlibEdopRs.EDLIB_EDOP_INSERT,
        EdlibEdopRs.EDLIB_EDOP_INSERT]
      EdlibCigarFormatRs.EDLIB_CIGAR_STANDARD = some "5M2I" ∧
    edlibAlignmentToCigarModel
      [EdlibEdopRs.EDLIB_EDOP_MATCH, EdlibEdopRs.EDLIB_EDOP_MATCH,
        EdlibEdopRs.EDLIB_EDOP_MATCH, EdlibEdopRs.EDLIB_EDOP_MATCH,
        EdlibEdopRs.EDLIB_EDOP_MATCH, EdlibEdopRs.EDLIB_EDOP_INSERT,
        EdlibEdopRs.EDLIB_EDOP_INSERT]
      EdlibCigarFormatRs.EDLIB_CIGAR_EXTENDED = some "5=2I" := by
  refine ⟨by decide, by decide, by decide, by decide, by decide, by decide⟩

/-! ## Result invariants -/

theorem startFor_le (beq : Nat → Nat → Bool) (mode : EdlibAlignModeRs)
    (q t : List Nat) (d e : Nat) : startFor beq mode q t d e ≤ e := by
  cases mode with
  | EDLIB_MODE_NW => exact Nat.zero_le e
  | EDLIB_MODE_SHW => exact Nat.zero_le e
  | EDLIB_MODE_HW =>
      show (((List.range (e + 1)).find?
        (fun s => distNW beq q (slice s (e + 1) t) == d)).getD 0) ≤ e
      cases hf : (List.range (e + 1)).find?
          (fun s => distNW beq q (slice s (e + 1) t) == d) with
      | none => exact Nat.zero_le e
      | some s =>
          have hmem := List.mem_of_find?_eq_some hf
          have hlt := List.mem_range.mp hmem
          simpa using Nat.lt_succ_iff.mp hlt

theorem map_getD_le (F G : Nat → Int) (hFG : ∀ x, F x ≤ G x) :
    ∀ (l : List Nat) (i : Nat), (l.map F).getD i 0 ≤ (l.map G).getD i 0 := by
  intro l
  induction l with
  | nil => intro i; simp
  | cons x xs ih =>
      intro i
      cases i with
      | zero => simpa using hFG x
      | succ i => simpa using ih i

theorem startLocs_invariant (beq : Nat → Nat → Bool) (mode : EdlibAlignModeRs)
    (q t : List Nat) (d : Nat) (ends : List Nat) :
    (((ends.map (startFor beq mode q t d)).map Int.ofNat).length =
        (ends.map Int.ofNat).length ∧
      ∀ i, ((ends.map (startFor beq mode q t d)).map Int.ofNat).getD i 0 ≤
        (ends.map Int.ofNat).getD i 0) := by
  constructor
  · rw [List.length_map, List.length_map, List.length_map]
  · intro i
    rw [List.map_map]
    exact map_getD_le _ _
      (fun e => Nat.cast_le.mpr (startFor_le beq mode q t d e)) ends i

/-- Claim C5: every result of the aligner satisfies the result
invariant: when the edit distance is the `-1` sentinel, the end
locations, start locations and path are all absent; and whenever start
and end locations are both present they have the same length and each
start location is at most its corresponding end location. -/
theorem claim_C5 (q t : List Nat) (cfg : EdlibAlignConfigRs) :
    ((edlibAlignModel q t cfg).editDistance = -1 →
      (edlibAlignModel q t cfg).endLocations = none ∧
      (edlibAlignModel q t cfg).startLocations = none ∧
      (edlibAlignModel q t cfg).alignment = none) ∧
    (∀ ss es, (edlibAlignModel q t cfg).startLocations = some ss →
      (edlibAlignModel q t cfg).endLocations = some es →
      ss.length = es.length ∧ ∀ i, ss.getD i 0 ≤ es.getD i 0) := by
  obtain ⟨k, mode, task, pairs⟩ := cfg
  by_cases hc : 0 ≤ k ∧ k < ((modeDist (symEq (classesOf q t pairs)) mode q t : Nat) : Int)
  · constructor
    · intro _
      refine ⟨?_, ?_, ?_⟩ <;> simp [edlibAlignModel, hc]
    · intro ss es hss _
      simp [edlibAlignModel, hc] at hss
  · constructor
    · intro hd
      simp [edlibAlignModel, hc] at hd
    · intro ss es hss hes
      have hes' : some ((modeEnds (symEq (classesOf q t pairs)) mode q t
          (modeDist (symEq (classesOf q t pairs)) mode q t)).map Int.ofNat) =
          some es := by
        rw [← hes]
        simp [edlibAlignModel, hc]
      cases task with
      | EDLIB_TASK_DISTANCE =>
          have hnone : (none : Option (List Int)) = some ss := by
            rw [← hss]
            simp [edlibAlignModel, hc]
          exact absurd hnone (by simp)
      | EDLIB_TASK_LOC =>
          have hss' : some (((modeEnds (symEq (classesOf q t pairs)) mode q t
              (modeDist (symEq (classesOf q t pairs)) mode q t)).map
                (startFor (symEq (classesOf q t pairs)) mode q t
                  (modeDist (symEq (classesOf q t pairs)) mode q t))).map
                Int.ofNat) = some ss := by
            rw [← hss]
            simp [edlibAlignModel, hc]
          rw [Option.some.injEq] at hss' hes'
          rw [← hss', ← hes']
          exact startLocs_invariant _ _ _ _ _ _
      | EDLIB_TASK_PATH =>
          have hss' : some (((modeEnds (symEq (classesOf q t pairs)) mode q t
              (modeDist (symEq (classesOf q t pairs)) mode q t)).map
                (startFor (symEq (classesOf q t pairs)) mode q t
                  (modeDist (symEq (classesOf q t pairs)) mode q t))).map
                Int.ofNat) = some ss := by
            rw [← hss]
            simp [edlibAlignModel, hc]
          rw [Option.some.injEq] at hss' hes'
          rw [← hss', ← hes']
          exact startLocs_invariant _ _ _ _ _ _

/-- Witness for claim C5: the sentinel branch at the bounded test input
and the presence branch at the infix path test input. -/
theorem claim_C5_witness :
    ((edlibAlignModel seqACCTCTG seqACTCTGAAA
        { EdlibAlignConfigRs.default with k := 3 }).endLocations = none ∧
      (edlibAlignModel seqACCTCTG seqACTCTGAAA
        { EdlibAlignConfigRs.default with k := 3 }).startLocations = none ∧
      (edlibAlignModel seqACCTCTG seqACTCTGAAA
        { EdlibAlignConfigRs.default with k := 3 }).alignment = none) ∧
    (([(0 : Int), 0, 0]).length = ([(4 : Int), 5, 6]).length ∧
      ∀ i, ([(0 : Int), 0, 0]).getD i 0 ≤ ([(4 : Int), 5, 6]).getD i 0) :=
  ⟨(claim_C5 seqACCTCTG seqACTCTGAAA
      { EdlibAlignConfigRs.default with k := 3 }).1 (by decide),
   (claim_C5 seqMissing seqMississipi cfgPathHW).2
      [(0 : Int), 0, 0] [(4 : Int), 5, 6] (by decide) (by decide)⟩

/-- Claim C7: for fixed query, target, mode, task and equality pairs,
and non-negative bounds `k1 < k2`, if the aligner does not report the
sentinel at bound `k1` then at bound `k2` it reports the same finite
edit distance. -/
theorem claim_C7 (q t : List Nat) (mode : EdlibAlignModeRs)
    (task : EdlibAlignTaskRs) (pairs : List EdlibEqualityPairRs) (k1 k2 : Int)
    (h0 : 0 ≤ k1) (h12 : k1 < k2)
    (hne : (edlibAlignModel q t ⟨k1, mode, task, pairs⟩).editDistance ≠ -1) :
    (edlibAlignModel q t ⟨k2, mode, task, pairs⟩).editDistance =
      (edlibAlignModel q t ⟨k1, mode, task, pairs⟩).editDistance ∧
    (edlibAlignModel q t ⟨k2, mode, task, pairs⟩).editDistance ≠ -1 := by
  by_cases hc1 : 0 ≤ k1 ∧ k1 < ((modeDist (symEq (classesOf q t pairs)) mode q t : Nat) : Int)
  · exfalso
    apply hne
    simp [edlibAlignModel, hc1]
  · have hdk1 : ¬ k1 < ((modeDist (symEq (classesOf q t pairs)) mode q t : Nat) : Int) :=
      fun h => hc1 ⟨h0, h⟩
    have hc2 : ¬ (0 ≤ k2 ∧
        k2 < ((modeDist (symEq (classesOf q t pairs)) mode q t : Nat) : Int)) := by
      intro h
      exact hdk1 (lt_trans h12 h.2)
    constructor
    · simp [edlibAlignModel, hc1, hc2]
    · simp [edlibAlignModel, hc2]

/-- Witness for claim C7 at the Global test input with bounds
`k1 = 4 < k2 = 7` (true distance 4). -/
theorem claim_C7_witness :
    (edlibAlignModel seqACCTCTG seqACTCTGAAA
      ⟨7, EdlibAlignModeRs.EDLIB_MODE_NW, EdlibAlignTaskRs.EDLIB_TASK_DISTANCE, []⟩).editDistance =
      (edlibAlignModel seqACCTCTG seqACTCTGAAA
        ⟨4, EdlibAlignModeRs.EDLIB_MODE_NW,
          EdlibAlignTaskRs.EDLIB_TASK_DISTANCE, []⟩).editDistance ∧
    (edlibAlignModel seqACCTCTG seqACTCTGAAA
      ⟨7, EdlibAlignModeRs.EDLIB_MODE_NW,
        EdlibAlignTaskRs.EDLIB_TASK_DISTANCE, []⟩).editDistance ≠ -1 :=
  claim_C7 seqACCTCTG seqACTCTGAAA EdlibAlignModeRs.EDLIB_MODE_NW
    EdlibAlignTaskRs.EDLIB_TASK_DISTANCE [] 4 7 (by decide) (by decide) (by decide)

/-! ## Self-alignment

The DP sweep keeps a zero on the main diagonal when a sequence is
aligned against itself, so the global distance of `S` against `S` is
zero. -/

theorem rowAux_length (beq : Nat → Nat → Bool) (qc : Nat) :
    ∀ (t prev : List Nat) (left : Nat), prev.length = t.length + 1 →
      (rowAux beq qc t prev left).length = t.length := by
  intro t
  induction t with
  | nil => intro prev left _; simp [rowAux]
  | cons tc ts ih =>
      intro prev left h
      cases prev with
      | nil => simp at h
      | cons pd rest =>
          cases rest with
          | nil => simp at h
          | cons pu ps =>
              simp only [rowAux, List.length_cons]
              rw [ih (pu :: ps) _ (by simpa using h)]

theorem rowAux_diag (beq : Nat → Nat → Bool) (qc : Nat) :
    ∀ (m : Nat) (t prev : List Nat) (left : Nat),
      m < t.length → prev.length = t.length + 1 →
      beq qc (t.getD m 0) = true → prev.getD m 0 = 0 →
      (rowAux beq qc t prev left).getD m 0 = 0 := by
  intro m
  induction m with
  | zero =>
      intro t prev left hm hp hb h0
      cases t with
      | nil => simp at hm
      | cons tc ts =>
          cases prev with
          | nil => simp at hp
          | cons pd rest =>
              cases rest with
              | nil => simp at hp
              | cons pu ps =>
                  simp only [List.getD_cons_zero] at hb h0
                  simp only [rowAux, List.getD_cons_zero]
                  subst h0
                  simp [hb]
  | succ m ih =>
      intro t prev left hm hp hb h0
      cases t with
      | nil => simp at hm
      | cons tc ts =>
          cases prev with
          | nil => simp at hp
          | cons pd rest =>
              cases rest with
              | nil => simp at hp
              | cons pu ps =>
                  simp only [List.getD_cons_succ] at hb h0
                  simp only [rowAux, List.getD_cons_succ]
                  exact ih ts (pu :: ps) _ (by simpa using hm)
                    (by simpa using hp) hb h0

theorem dpRows_diag (beq : Nat → Nat → Bool) (t : List Nat)
    (hrefl : ∀ x, beq x x = true) :
    ∀ (qs : List Nat) (j : Nat) (row : List Nat),
      qs = t.drop j → j ≤ t.length → row.length = t.length + 1 →
      row.getD j 0 = 0 →
      (dpRows beq t qs row (j + 1)).getD t.length 0 = 0 := by
  intro qs
  induction qs with
  | nil =>
      intro j row hqs hj hlen h0
      have hge : t.length ≤ j := by
        have := hqs.symm
        rw [List.drop_eq_nil_iff] at this
        exact this
      have hje : j = t.length := le_antisymm hj hge
      subst hje
      simpa [dpRows] using h0
  | cons qc qs' ih =>
      intro j row hqs hj hlen h0
      have hjlt : j < t.length := by
        by_contra hge
        have : t.drop j = [] := List.drop_eq_nil_of_le (by omega)
        rw [this] at hqs
        exact List.noConfusion hqs
      have hdrop := (List.drop_eq_getElem_cons hjlt).symm
      rw [← hqs] at hdrop
      have hqc : t.getD j 0 = qc := by
        have h1 : t[j] = qc := ((List.cons.injEq _ _ _ _).mp hdrop).1
        rw [List.getD_eq_getElem t 0 hjlt]
        exact h1
      have hqs' : qs' = t.drop (j + 1) :=
        ((List.cons.injEq _ _ _ _).mp hdrop).2.symm
      simp only [dpRows]
      have hstep := ih (j + 1) ((j + 1) :: rowAux beq qc t row (j + 1)) hqs'
        (by omega)
        (by simp only [List.length_cons]; rw [rowAux_length beq qc t row _ hlen])
        (by
          simp only [List.getD_cons_succ]
          exact rowAux_diag beq qc j t row _ hjlt hlen
            (by rw [hqc]; exact hrefl qc) h0)
      exact hstep

theorem distNW_self (beq : Nat → Nat → Bool) (hrefl : ∀ x, beq x x = true)
    (S : List Nat) : distNW beq S S = 0 := by
  unfold distNW finalRow
  have h := dpRows_diag beq S hrefl S 0 (List.range (S.length + 1))
    (by simp) (Nat.zero_le _) (by simp)
    (by rw [List.range_succ_eq_map]; simp)
  simpa using h

/-- Claim C8: aligning any byte sequence against itself in Global mode
with the default configuration yields edit distance 0. -/
theorem claim_C8 (S : List Nat) :
    (edlibAlignModel S S EdlibAlignConfigRs.default).editDistance = 0 := by
  have hc : ¬(0 ≤ EdlibAlignConfigRs.default.k ∧
      EdlibAlignConfigRs.default.k <
        ((modeDist (symEq (classesOf S S EdlibAlignConfigRs.default.additionalequalities))
          EdlibAlignConfigRs.default.mode S S : Nat) : Int)) := by
    intro h
    exact absurd h.1 (by decide)
  simp only [edlibAlignModel, EdlibAlignConfigRs.default] at hc ⊢
  rw [if_neg hc]
  show ((modeDist (symEq (classesOf S S [])) EdlibAlignModeRs.EDLIB_MODE_NW S S : Nat) : Int) = 0
  have hd : modeDist (symEq (classesOf S S [])) EdlibAlignModeRs.EDLIB_MODE_NW S S = 0 :=
    distNW_self (symEq (classesOf S S [])) (fun x => symEq_refl (classesOf S S []) x) S
  rw [hd]
  rfl

/-! ## Marshalling of the native result (`edlibAlignRs`, src lines 294-329)

The Rust wrapper copies the native `EdlibAlignResult` into the Rust
record: a native array pointer is modelled as `none` when null and as
the function giving its elements otherwise, and a panicking `assert!`
on a null pointer is modelled as `none`. -/

/-- The native `EdlibAlignResult` record as seen by the Rust wrapper. -/
structure EdlibAlignResultC where
  status : Nat
  editDistance : Int
  endLocations : Option (Nat → Int)
  startLocations : Option (Nat → Int)
  numLocations : Nat
  alignment : Option (Nat → EdlibEdopRs)
  alignmentLength : Nat
  alphabetLength : Nat

/-- Reading `n` elements from a native array
(`slice::from_raw_parts(ptr, n).to_vec()`). -/
def readArray {α : Type} (f : Nat → α) (n : Nat) : List α :=
  (List.range n).map f

/-- The result-marshalling tail of `edlibAlignRs` (src lines 294-329):
start from the default record; copy status, edit distance and
`numLocations`; when `numLocations > 0` the end-location pointer must
be non-null and its `numLocations` elements are copied, and the
start-location pointer, when non-null, is copied likewise; when
`alignmentLength > 0` the alignment pointer must be non-null and its
elements are copied; finally the alphabet length is copied. -/
def edlibAlignRsMarshal (res_c : EdlibAlignResultC) : Option EdlibAlignResultRs :=
  let r1 := { EdlibAlignResultRs.default with
    status := res_c.status
    editDistance := res_c.editDistance
    numLocations := res_c.numLocations }
  let r2? : Option EdlibAlignResultRs :=
    if 0 < res_c.numLocations then
      match res_c.endLocations with
      | none => none
      | some pe =>
          let rEnd := { r1 with endLocations := some (readArray pe res_c.numLocations) }
          match res_c.startLocations with
          | some ps =>
              some { rEnd with startLocations := some (readArray ps res_c.numLocations) }
          | none => some rEnd
    else some r1
  match r2? with
  | none => none
  | some r2 =>
      let r3? : Option EdlibAlignResultRs :=
        if 0 < res_c.alignmentLength then
          match res_c.alignment with
          | none => none
          | some pa => some { r2 with alignment := some (readArray pa res_c.alignmentLength) }
        else some r2
      match r3? with
      | none => none
      | some r3 => some { r3 with alphabetLength := res_c.alphabetLength }

/-- Claim C9: every Rust result record built by the marshalling code of
`edlibAlignRs` has start locations only when end locations are present,
and any present location vector has exactly `numLocations` elements. -/
theorem claim_C9 (res_c : EdlibAlignResultC) (r : EdlibAlignResultRs)
    (h : edlibAlignRsMarshal res_c = some r) :
    (r.startLocations.isSome = true → r.endLocations.isSome = true) ∧
    (∀ l, r.endLocations = some l → l.length = r.numLocations) ∧
    (∀ l, r.startLocations = some l → l.length = r.numLocations) := by
  obtain ⟨cs, ced, cel, csl, cn, cal, call, cab⟩ := res_c
  by_cases hn : 0 < cn <;> by_cases ha : 0 < call <;>
    cases cel <;> cases csl <;> cases cal <;>
      simp [edlibAlignRsMarshal, hn, ha, EdlibAlignResultRs.default] at h <;>
        subst h <;>
          simp [readArray]

/-- An example native result with one location pair and no path. -/
def resCexample : EdlibAlignResultC :=
  { status := EDLIB_RS_STATUS_OK
    editDistance := 2
    endLocations := some (fun _ => 4)
    startLocations := some (fun _ => 0)
    numLocations := 1
    alignment := none
    alignmentLength := 0
    alphabetLength := 6 }

/-- The Rust record marshalled from `resCexample`. -/
def rExample : EdlibAlignResultRs :=
  { status := EDLIB_RS_STATUS_OK
    editDistance := 2
    endLocations := some [4]
    startLocations := some [0]
    numLocations := 1
    alignment := none
    alphabetLength := 6 }

/-- Witness for claim C9 at the concrete native result `resCexample`. -/
theorem claim_C9_witness :
    rExample.endLocations.isSome = true ∧
    [(4 : Int)].length = rExample.numLocations ∧
    [(0 : Int)].length = rExample.numLocations :=
  ⟨(claim_C9 resCexample rExample rfl).1 rfl,
   (claim_C9 resCexample rExample rfl).2.1 [(4 : Int)] rfl,
   (claim_C9 resCexample rExample rfl).2.2 [(0 : Int)] rfl⟩

end EdlibRs
